import Mathlib

/-
Verification of the point-cloud data model and operations of the
Collision_Avoidance repository.

The data model (point_property, color3, point_t) is embedded from
src/src/geometry/type.hpp.  Exact rational arithmetic stands in for the
single-precision values except where a claim is explicitly about
binary32 rounding; there a round-to-nearest-even binary32 model over ℚ
is used.  The CLI wrappers in src/apps are embedded as exit-code
functions of their failure conditions.  Operations of the GPU engine
whose implementation files are not part of the visible sources
(voxel_grid_down_sample, radius_search, radius_outlier_removal,
estimate_normals) are modelled from the specification, as noted on each
definition.
-/

namespace gca

/-- Point property enum from src/src/geometry/type.hpp lines 14-19:
invalid = 0, active = 1, inactive = 2, stored as uint8_t. -/
inductive point_property : Type where
  | invalid : point_property
  | active : point_property
  | inactive : point_property
deriving DecidableEq

/-- The numeric value each enumerator carries in the uint8_t
representation of point_property (type.hpp lines 14-19). -/
def point_property.code : point_property → ℕ
  | .invalid => 0
  | .active => 1
  | .inactive => 2

/-- Coordinate triple, the embedding of CUDA float3 as used by point_t;
components carried as exact rationals. -/
structure float3 : Type where
  x : ℚ
  y : ℚ
  z : ℚ
deriving DecidableEq

/-- RGB colour triple from src/src/geometry/type.hpp lines 21-63;
channels carried as exact rationals. -/
structure color3 : Type where
  r : ℚ
  g : ℚ
  b : ℚ
deriving DecidableEq

/-- color3 componentwise addition, from operator+ / operator+= in
type.hpp lines 32-43. -/
def color3.add (a c : color3) : color3 :=
  { r := a.r + c.r, g := a.g + c.g, b := a.b + c.b }

/-- color3::to_intensity from type.hpp lines 45-51, with the exact-value
reading of the arithmetic (the casts to double are the identity here):
0.2126 * r + 0.7152 * g + 0.0722 * b. -/
def color3.to_intensity (c : color3) : ℚ :=
  0.2126 * c.r + 0.7152 * c.g + 0.0722 * c.b

/-- The weighted sum the data model section of the spec states for the
derived intensity: 0.2126 * r + 0.7152 * g + 0.0722 * b. -/
def intensity_spec (c : color3) : ℚ :=
  0.2126 * c.r + 0.7152 * c.g + 0.0722 * c.b

/-- Point record from src/src/geometry/type.hpp lines 65-70. -/
structure point_t : Type where
  coordinates : float3
  color : color3
  property : point_property
deriving DecidableEq

/-- The property field of the record printed by the stream insertion
operator for point_t (type.hpp line 78): the source prints the string
Active when the property equals point_property::active and the string
Inactive otherwise. -/
def property_display (p : point_t) : String :=
  if p.property = point_property.active then "Active" else "Inactive"

/-- Exit code of apps/app.cpp main: it returns 1 when
rs_cam_0.device_start() fails (line 75) and otherwise runs its frame
loop until interrupted and returns 0 (line 671). -/
def app_main_exit (device_started : Bool) : ℕ :=
  if device_started then 0 else 1

/-- Exit code of apps/test_color_icp.cpp main: it returns 1 when the
source cloud file cannot be loaded (line 354), 1 when the target cloud
file cannot be loaded (line 359), and otherwise 0 (line 465). -/
def test_color_icp_exit (src_loaded tgt_loaded : Bool) : ℕ :=
  if src_loaded then (if tgt_loaded then 0 else 1) else 1

/-
Binary32 (IEEE-754 single precision, round to nearest, ties to even)
value model over exact rationals, used for the claims that are about the
float arithmetic of color3::operator/ in type.hpp lines 58-62.  A float
value is represented by the rational it denotes; round32 maps a real
(rational) value to the nearest representable binary32 value.  The model
covers the finite range (normal and subnormal); the inputs used in the
statements below stay far away from overflow.
-/

/-- Base-2 logarithm of a natural number by repeated halving, with
explicit fuel so that the recursion is structural. -/
def log2fuel : ℕ → ℕ → ℕ
  | 0, _ => 0
  | fuel + 1, n => if n < 2 then 0 else log2fuel fuel (n / 2) + 1

/-- Floor of the base-2 logarithm of a natural number (0 for 0). The
fuel 320 covers every magnitude the binary32 model can produce. -/
def natLog2 (n : ℕ) : ℕ := log2fuel 320 n

/-- Floor of the base-2 logarithm of a positive rational. -/
def ilog2 (x : ℚ) : ℤ :=
  let e0 : ℤ := (natLog2 x.num.natAbs : ℤ) - (natLog2 x.den : ℤ)
  if (2 : ℚ) ^ e0 ≤ x then e0 else e0 - 1

/-- Round a rational to the nearest integer, ties to even. -/
def rne (x : ℚ) : ℤ :=
  let n : ℤ := Int.ediv x.num (x.den : ℤ)
  let f : ℚ := x - (n : ℚ)
  if f < 1 / 2 then n
  else if 1 / 2 < f then n + 1
  else if n % 2 = 0 then n else n + 1

/-- Round a positive rational to binary32: scale into the 24-bit
mantissa range for its exponent (clamped at the subnormal threshold
-126), round the mantissa to nearest even, and scale back. -/
def round32pos (x : ℚ) : ℚ :=
  let e : ℤ := max (ilog2 x) (-126)
  ((rne (x * (2 : ℚ) ^ (23 - e)) : ℚ)) * (2 : ℚ) ^ (e - 23)

/-- Round a rational to the nearest binary32 value. -/
def round32 (x : ℚ) : ℚ :=
  if x = 0 then 0 else if x < 0 then -round32pos (-x) else round32pos x

/-- Binary32 product: exact product, then one rounding. -/
def fmul (a c : ℚ) : ℚ := round32 (a * c)

/-- Binary32 quotient: exact quotient, then one rounding. -/
def fdiv (a c : ℚ) : ℚ := round32 (a / c)

/-- color3::operator/ from type.hpp lines 58-62 under binary32
semantics: the count n is converted to float, the single-precision
reciprocal 1.0f / (float)n is formed once, and each channel is
multiplied by it. -/
def color3.div_count (c : color3) (n : ℕ) : color3 :=
  let inv := fdiv 1 (round32 n)
  { r := fmul c.r inv, g := fmul c.g inv, b := fmul c.b inv }

/-- Componentwise direct single-precision division by the count, the
alternative the source does not use; named for contrast with
color3.div_count. -/
def color3.div_count_direct (c : color3) (n : ℕ) : color3 :=
  { r := fdiv c.r (round32 n), g := fdiv c.g (round32 n), b := fdiv c.b (round32 n) }

/-- Squared Euclidean distance between two coordinate triples. -/
def dist2 (a c : float3) : ℚ :=
  (a.x - c.x) ^ 2 + (a.y - c.y) ^ 2 + (a.z - c.z) ^ 2

/-- Least element of a list of rationals (0 for the empty list). -/
def minOf : List ℚ → ℚ
  | [] => 0
  | x :: xs => xs.foldl min x

/-- Modelled from the spec: the componentwise minimum corner of the
cloud's cached axis-aligned bounding box, used as the grid origin of the
spatial index and the voxel grid (the bounding-box reduction is part of
the GPU backend, which is not among the visible sources). -/
def bboxMin (cloud : List point_t) : float3 :=
  { x := minOf (cloud.map fun p => p.coordinates.x),
    y := minOf (cloud.map fun p => p.coordinates.y),
    z := minOf (cloud.map fun p => p.coordinates.z) }

/-- Error kinds of the operations, from the error-handling design
section of the spec. -/
inductive gca_error : Type where
  | invalidArgument : gca_error
  | outOfMemory : gca_error
  | deviceError : gca_error
  | missingNormals : gca_error
  | noCorrespondences : gca_error
  | singular : gca_error
  | ioError : gca_error
deriving DecidableEq

/-- Modelled from the spec: the quantized cell index of a coordinate
triple in a grid with origin m and cell size h, floor((p - m)/h) per
axis. -/
def cellIdx (h : ℚ) (m p : float3) : ℤ × ℤ × ℤ :=
  (⌊(p.x - m.x) / h⌋, ⌊(p.y - m.y) / h⌋, ⌊(p.z - m.z) / h⌋)

/-- The cell of p lies in the 3×3×3 neighborhood of the cell of q: each
cell index differs by at most 1 per axis. -/
def cellNear (h : ℚ) (m q p : float3) : Prop :=
  |(cellIdx h m p).1 - (cellIdx h m q).1| ≤ 1 ∧
  |(cellIdx h m p).2.1 - (cellIdx h m q).2.1| ≤ 1 ∧
  |(cellIdx h m p).2.2 - (cellIdx h m q).2.2| ≤ 1

instance cellNear.instDecidable (h : ℚ) (m q p : float3) : Decidable (cellNear h m q p) := by
  unfold cellNear
  infer_instance

/-- The reference brute-force scan over all points: every (point index,
squared distance) pair with distance at most r from the query. -/
def brute_force_radius_search (cloud : List point_t) (q : float3) (r : ℚ) :
    List (ℕ × ℚ) :=
  cloud.enum.filterMap fun ip =>
    if dist2 ip.2.coordinates q ≤ r ^ 2 then some (ip.1, dist2 ip.2.coordinates q)
    else none

/-- Modelled from the spec: the grid-hash radius search of the spatial
index (its implementation is not among the visible sources).  A negative
radius or a radius exceeding the cell size h fails with InvalidArgument;
otherwise only the 3×3×3 cell neighborhood of the query's cell is
scanned and filtered by squared distance. -/
def radius_search (cloud : List point_t) (h : ℚ) (q : float3) (r : ℚ) :
    Except gca_error (List (ℕ × ℚ)) :=
  if r < 0 ∨ h < r then Except.error gca_error.invalidArgument
  else
    Except.ok (cloud.enum.filterMap fun ip =>
      if cellNear h (bboxMin cloud) q ip.2.coordinates ∧
          dist2 ip.2.coordinates q ≤ r ^ 2 then
        some (ip.1, dist2 ip.2.coordinates q)
      else none)

/-- Modelled from the spec: the number of points of the cloud other than
the point at index i that lie within distance r of p. -/
def count_other_neighbors (cloud : List point_t) (r : ℚ) (i : ℕ) (p : point_t) : ℕ :=
  cloud.enum.countP fun jq =>
    decide (jq.1 ≠ i ∧ dist2 jq.2.coordinates p.coordinates ≤ r ^ 2)

/-- Modelled from the spec: radius_outlier_removal keeps exactly the
points with at least minNeighbors other points within radius, in input
order (its implementation is not among the visible sources). -/
def radius_outlier_removal (cloud : List point_t) (r : ℚ) (minNeighbors : ℕ) :
    List point_t :=
  (cloud.enum.filter fun ip =>
    decide (minNeighbors ≤ count_other_neighbors cloud r ip.1 ip.2)).map Prod.snd

/-- float3 componentwise addition, the coordinate part of the voxel
accumulator's running sum. -/
def float3.add (a c : float3) : float3 :=
  { x := a.x + c.x, y := a.y + c.y, z := a.z + c.z }

/-- float3 division by a count (exact arithmetic). -/
def float3.divn (a : float3) (n : ℕ) : float3 :=
  { x := a.x / (n : ℚ), y := a.y / (n : ℚ), z := a.z / (n : ℚ) }

/-- color3 division by a count with exact arithmetic, the idealized
counterpart of color3::operator/ used inside the voxel mean. -/
def color3.divn (c : color3) (n : ℕ) : color3 :=
  { r := c.r / (n : ℚ), g := c.g / (n : ℚ), b := c.b / (n : ℚ) }

/-- Arithmetic mean of a list of rationals (0 for the empty list). -/
def meanQ (l : List ℚ) : ℚ := l.sum / (l.length : ℚ)

/-- Modelled from the spec: the voxel accumulator reduced to one output
point, the running sums of coordinates and colour divided by the
contributor count, with property active. -/
def voxelMean (l : List point_t) : point_t :=
  { coordinates :=
      ((l.map point_t.coordinates).foldl float3.add (float3.mk 0 0 0)).divn l.length,
    color := ((l.map point_t.color).foldl color3.add (color3.mk 0 0 0)).divn l.length,
    property := point_property.active }

/-- The input points falling into voxel k of the grid with cell size
leaf anchored at the cloud's bounding-box minimum. -/
def contributors (cloud : List point_t) (leaf : ℚ) (k : ℤ × ℤ × ℤ) : List point_t :=
  cloud.filter fun p => decide (cellIdx leaf (bboxMin cloud) p.coordinates = k)

/-- Modelled from the spec: voxel_grid_down_sample (its implementation
is not among the visible sources).  Each input point contributes to the
voxel floor((p - min)/leaf) containing it; the output carries one mean
point per occupied voxel, voxels in first-occurrence order. -/
def voxel_grid_down_sample (cloud : List point_t) (leaf : ℚ) : List point_t :=
  ((cloud.map fun p => cellIdx leaf (bboxMin cloud) p.coordinates).dedup).map fun k =>
    voxelMean (contributors cloud leaf k)

/-- Euclidean 3-vector, the value space of positions and normals in the
normal-estimation model. -/
abbrev vec3 : Type := EuclideanSpace ℝ (Fin 3)

/-- A point of the normal-estimation model: position and property (the
colour plays no role in estimate_normals).  Positions are exact reals
standing in for the device float3 values. -/
structure rpoint : Type where
  pos : vec3
  property : point_property

open Classical in
/-- Modelled from the spec: the neighborhood of p gathered within the
given radius (estimate_normals is not among the visible sources). -/
noncomputable def neighbors (cloud : List rpoint) (radius : ℝ) (p : rpoint) :
    List rpoint :=
  cloud.filter fun q => decide (dist q.pos p.pos ≤ radius)

/-- Mean of the i-th coordinates of a list of vectors. -/
noncomputable def vmean (l : List vec3) (i : Fin 3) : ℝ :=
  (l.map fun v => v i).sum / (l.length : ℝ)

/-- Modelled from the spec: the 3×3 covariance matrix of a neighborhood
about its centroid. -/
noncomputable def cov (l : List vec3) : Matrix (Fin 3) (Fin 3) ℝ :=
  Matrix.of fun a c => (l.map fun v => (v a - vmean l a) * (v c - vmean l c)).sum

/-- The covariance matrix bundled with the proof that it is symmetric,
hence Hermitian over ℝ, which admits it to the spectral theorem. -/
noncomputable def covH (l : List vec3) :
    { M : Matrix (Fin 3) (Fin 3) ℝ // M.IsHermitian } :=
  ⟨cov l, by
    show (cov l).conjTranspose = cov l
    ext a c
    have hswap : (fun v : vec3 => (v a - vmean l a) * (v c - vmean l c)) =
        fun v : vec3 => (v c - vmean l c) * (v a - vmean l a) :=
      funext fun v => mul_comm _ _
    simp [cov, Matrix.conjTranspose_apply, hswap]⟩

/-- An index of a smallest value of a function on Fin 3, chosen
classically. -/
noncomputable def minIdx (f : Fin 3 → ℝ) : Fin 3 :=
  Classical.choose (Finset.exists_min_image Finset.univ f ⟨0, Finset.mem_univ 0⟩)

/-- Modelled from the spec: the covariance of a neighborhood is
degenerate when its smallest eigenvalue is within 1e-9 of the next
one. -/
noncomputable def degenerate (l : List vec3) : Prop :=
  ∃ j : Fin 3, j ≠ minIdx (covH l).2.eigenvalues ∧
    (covH l).2.eigenvalues j ≤
      (covH l).2.eigenvalues (minIdx (covH l).2.eigenvalues) + 1e-9

open Classical in
/-- Modelled from the spec: the normal and resulting property of one
point under estimate_normals.  Fewer than 3 neighbors or a degenerate
covariance yields the zero normal and the invalid property; otherwise
the normal is a unit eigenvector of a smallest eigenvalue of the
neighborhood covariance and the property is unchanged. -/
noncomputable def normalAt (cloud : List rpoint) (radius : ℝ) (p : rpoint) :
    vec3 × point_property :=
  let nb := neighbors cloud radius p
  if nb.length < 3 then (0, point_property.invalid)
  else if degenerate (nb.map rpoint.pos) then (0, point_property.invalid)
  else
    ((covH (nb.map rpoint.pos)).2.eigenvectorBasis
        (minIdx (covH (nb.map rpoint.pos)).2.eigenvalues),
      p.property)

/-- Modelled from the spec: estimate_normals attaches a normal to every
point and downgrades points with too small or degenerate neighborhoods
to invalid. -/
noncomputable def estimate_normals (cloud : List rpoint) (radius : ℝ) :
    List (rpoint × vec3) :=
  cloud.map fun p =>
    ({ pos := p.pos, property := (normalAt cloud radius p).2 },
      (normalAt cloud radius p).1)

/-- C1: for every color with channels r, g, b in [0,1], the derived
intensity color3::to_intensity equals the weighted sum
0.2126*r + 0.7152*g + 0.0722*b stated by the data model (exact-value
reading of the arithmetic). -/
theorem to_intensity_eq_weighted_sum (c : color3)
    (hr0 : 0 ≤ c.r) (hr1 : c.r ≤ 1) (hg0 : 0 ≤ c.g) (hg1 : c.g ≤ 1)
    (hb0 : 0 ≤ c.b) (hb1 : c.b ≤ 1) :
    c.to_intensity = intensity_spec c := rfl

/-- Witness for C1 at the concrete colour (1/2, 1/2, 1/2). -/
theorem to_intensity_eq_weighted_sum_witness :
    (0 ≤ ((1 : ℚ)/2) ∧ ((1 : ℚ)/2) ≤ 1) ∧
    (color3.mk (1/2) (1/2) (1/2)).to_intensity = intensity_spec (color3.mk (1/2) (1/2) (1/2)) :=
  ⟨⟨by norm_num, by norm_num⟩,
    to_intensity_eq_weighted_sum (color3.mk (1/2) (1/2) (1/2)) (by norm_num) (by norm_num)
      (by norm_num) (by norm_num) (by norm_num) (by norm_num)⟩

/-- C7: every modelled execution of the two CLI wrappers exits with a
code in {0, 1, 2}: 0 exactly when every acquisition step succeeded, and
1 on the failure paths (camera failed to start; a cloud file failed to
load). No other exit value is reachable. -/
theorem cli_exit_codes (d s t : Bool) :
    (app_main_exit d = 0 ∨ app_main_exit d = 1 ∨ app_main_exit d = 2) ∧
    (test_color_icp_exit s t = 0 ∨ test_color_icp_exit s t = 1 ∨
      test_color_icp_exit s t = 2) ∧
    (app_main_exit d = 0 ↔ d = true) ∧
    (test_color_icp_exit s t = 0 ↔ (s = true ∧ t = true)) := by
  cases d <;> cases s <;> cases t <;> simp [app_main_exit, test_color_icp_exit]

/-- C8: the stream output of a point whose property is not active
prints the property as Inactive; in particular an invalid point is
reported as Inactive. -/
theorem property_display_not_active (p : point_t)
    (h : p.property ≠ point_property.active) :
    property_display p = "Inactive" := by
  unfold property_display
  rw [if_neg h]

/-- Witness for C8 at a concrete invalid point. -/
theorem property_display_not_active_witness :
    (point_t.mk (float3.mk 0 0 0) (color3.mk 0 0 0) point_property.invalid).property ≠
      point_property.active ∧
    property_display (point_t.mk (float3.mk 0 0 0) (color3.mk 0 0 0) point_property.invalid) =
      "Inactive" :=
  ⟨by decide, property_display_not_active _ (by decide)⟩

/-- C9: color3::operator/ computes each channel as multiplication by the
single-precision reciprocal 1.0f/(float)n, not as direct division, and
the two roundings can differ: at the colour (5,5,5) with count 3 the
reciprocal-multiply result is not the direct-division result. -/
theorem div_count_is_reciprocal_multiply :
    (∀ (c : color3) (n : ℕ), color3.div_count c n =
      { r := fmul c.r (fdiv 1 (round32 n)), g := fmul c.g (fdiv 1 (round32 n)),
        b := fmul c.b (fdiv 1 (round32 n)) }) ∧
    (∃ (c : color3) (n : ℕ), color3.div_count c n ≠ color3.div_count_direct c n) := by
  constructor
  · intro c n
    rfl
  · refine ⟨color3.mk 5 5 5, 3, fun hcontra => ?_⟩
    have key : fmul 5 (fdiv 1 (round32 3)) ≠ fdiv 5 (round32 3) := by
      have h3 : natLog2 3 = 1 := rfl
      have h1 : natLog2 1 = 0 := rfl
      have h5 : natLog2 11184811 = 23 := rfl
      have h55 : natLog2 55924055 = 25 := rfl
      have h2 : natLog2 33554432 = 25 := rfl
      have h25 : natLog2 5 = 2 := rfl
      norm_num [fmul, fdiv, round32, round32pos, ilog2, rne, h3, h1, h5, h55, h2, h25,
        max_def]
    exact key (congrArg color3.r hcontra)

/-- Helper: folding an addition-like operation and reading off an
additive projection gives the sum of the projections. -/
theorem foldl_proj_sum {β : Type} (g : β → β → β) (f : β → ℚ)
    (hg : ∀ u v, f (g u v) = f u + f v) (l : List β) (a : β) :
    f (l.foldl g a) = f a + (l.map f).sum := by
  induction l generalizing a with
  | nil => simp
  | cons b t ih => simp [List.foldl_cons, ih, hg, add_assoc]

/-- Helper: the x coordinate of a voxel mean is the arithmetic mean of
the contributors' x coordinates; likewise for every other component. -/
theorem voxelMean_coord_x (C : List point_t) :
    (voxelMean C).coordinates.x = meanQ (C.map fun p => p.coordinates.x) := by
  show ((C.map point_t.coordinates).foldl float3.add (float3.mk 0 0 0)).x /
      (C.length : ℚ) = _
  rw [foldl_proj_sum float3.add float3.x (fun u v => rfl) _ (float3.mk 0 0 0)]
  simp [meanQ, Function.comp_def]

theorem voxelMean_coord_y (C : List point_t) :
    (voxelMean C).coordinates.y = meanQ (C.map fun p => p.coordinates.y) := by
  show ((C.map point_t.coordinates).foldl float3.add (float3.mk 0 0 0)).y /
      (C.length : ℚ) = _
  rw [foldl_proj_sum float3.add float3.y (fun u v => rfl) _ (float3.mk 0 0 0)]
  simp [meanQ, Function.comp_def]

theorem voxelMean_coord_z (C : List point_t) :
    (voxelMean C).coordinates.z = meanQ (C.map fun p => p.coordinates.z) := by
  show ((C.map point_t.coordinates).foldl float3.add (float3.mk 0 0 0)).z /
      (C.length : ℚ) = _
  rw [foldl_proj_sum float3.add float3.z (fun u v => rfl) _ (float3.mk 0 0 0)]
  simp [meanQ, Function.comp_def]

theorem voxelMean_color_r (C : List point_t) :
    (voxelMean C).color.r = meanQ (C.map fun p => p.color.r) := by
  show ((C.map point_t.color).foldl color3.add (color3.mk 0 0 0)).r /
      (C.length : ℚ) = _
  rw [foldl_proj_sum color3.add color3.r (fun u v => rfl) _ (color3.mk 0 0 0)]
  simp [meanQ, Function.comp_def]

theorem voxelMean_color_g (C : List point_t) :
    (voxelMean C).color.g = meanQ (C.map fun p => p.color.g) := by
  show ((C.map point_t.color).foldl color3.add (color3.mk 0 0 0)).g /
      (C.length : ℚ) = _
  rw [foldl_proj_sum color3.add color3.g (fun u v => rfl) _ (color3.mk 0 0 0)]
  simp [meanQ, Function.comp_def]

theorem voxelMean_color_b (C : List point_t) :
    (voxelMean C).color.b = meanQ (C.map fun p => p.color.b) := by
  show ((C.map point_t.color).foldl color3.add (color3.mk 0 0 0)).b /
      (C.length : ℚ) = _
  rw [foldl_proj_sum color3.add color3.b (fun u v => rfl) _ (color3.mk 0 0 0)]
  simp [meanQ, Function.comp_def]

/-- Helper: a common lower bound on every element bounds the sum from
below times the length. -/
theorem length_mul_le_sum (l : List ℚ) (c : ℚ) (hl : ∀ x ∈ l, c ≤ x) :
    (l.length : ℚ) * c ≤ l.sum := by
  induction l with
  | nil => simp
  | cons b t ih =>
    have hb := hl b (List.mem_cons_self b t)
    have ht := ih fun x hx => hl x (List.mem_cons_of_mem b hx)
    simp only [List.length_cons, List.sum_cons]
    push_cast
    linarith

/-- Helper: a common upper bound on every element bounds the sum from
above times the length. -/
theorem sum_le_length_mul (l : List ℚ) (c : ℚ) (hl : ∀ x ∈ l, x ≤ c) :
    l.sum ≤ (l.length : ℚ) * c := by
  induction l with
  | nil => simp
  | cons b t ih =>
    have hb := hl b (List.mem_cons_self b t)
    have ht := ih fun x hx => hl x (List.mem_cons_of_mem b hx)
    simp only [List.length_cons, List.sum_cons]
    push_cast
    linarith

/-- Helper: a strict common upper bound is strict for the sum of a
nonempty list. -/
theorem sum_lt_length_mul (l : List ℚ) (c : ℚ) (hne : l ≠ []) (hl : ∀ x ∈ l, x < c) :
    l.sum < (l.length : ℚ) * c := by
  cases l with
  | nil => exact absurd rfl hne
  | cons b t =>
    have hb := hl b (List.mem_cons_self b t)
    have ht : t.sum ≤ (t.length : ℚ) * c :=
      sum_le_length_mul t c fun x hx => le_of_lt (hl x (List.mem_cons_of_mem b hx))
    simp only [List.length_cons, List.sum_cons]
    push_cast
    linarith

/-- Helper: the mean of values that all land in the same grid cell
lands in that cell as well, because each cell is an interval. -/
theorem floor_mean_eq (k : ℤ) (h m : ℚ) (hh : 0 < h) (l : List ℚ) (hne : l ≠ [])
    (hmem : ∀ x ∈ l, ⌊(x - m) / h⌋ = k) : ⌊(meanQ l - m) / h⌋ = k := by
  have hn : 0 < (l.length : ℚ) := by
    exact_mod_cast List.length_pos.mpr hne
  have hlo : ∀ x ∈ l, m + k * h ≤ x := by
    intro x hx
    have h1 : (k : ℚ) ≤ (x - m) / h := by
      rw [← hmem x hx]
      exact Int.floor_le _
    have h2 : (k : ℚ) * h ≤ x - m := (le_div_iff₀ hh).mp h1
    linarith
  have hhi : ∀ x ∈ l, x < m + (k + 1) * h := by
    intro x hx
    have h1 : (x - m) / h < k + 1 := by
      have := Int.lt_floor_add_one ((x - m) / h)
      rw [hmem x hx] at this
      exact_mod_cast this
    have h2 : x - m < (k + 1) * h := (div_lt_iff hh).mp h1
    linarith
  have hsum1 : (l.length : ℚ) * (m + k * h) ≤ l.sum := length_mul_le_sum l _ hlo
  have hsum2 : l.sum < (l.length : ℚ) * (m + (k + 1) * h) := sum_lt_length_mul l _ hne hhi
  have hm1 : m + k * h ≤ meanQ l := by
    rw [meanQ, le_div_iff₀ hn]
    linarith
  have hm2 : meanQ l < m + (k + 1) * h := by
    rw [meanQ, div_lt_iff hn]
    linarith
  rw [Int.floor_eq_iff]
  constructor
  · rw [le_div_iff₀ hh]
    linarith
  · rw [div_lt_iff hh]
    push_cast
    linarith

/-- Helper: an occupied voxel has a nonempty contributor list, and the
mean of the contributors lands back in that very voxel. -/
theorem voxel_key_of_mean (cloud : List point_t) (leaf : ℚ) (hleaf : 0 < leaf)
    (k : ℤ × ℤ × ℤ) (hk : ∃ p ∈ cloud, cellIdx leaf (bboxMin cloud) p.coordinates = k) :
    contributors cloud leaf k ≠ [] ∧
    cellIdx leaf (bboxMin cloud) (voxelMean (contributors cloud leaf k)).coordinates = k := by
  obtain ⟨p, hp, hpk⟩ := hk
  have hpC : p ∈ contributors cloud leaf k :=
    List.mem_filter.mpr ⟨hp, decide_eq_true hpk⟩
  have hCne : contributors cloud leaf k ≠ [] := List.ne_nil_of_mem hpC
  have hkey : ∀ s ∈ contributors cloud leaf k,
      cellIdx leaf (bboxMin cloud) s.coordinates = k :=
    fun s hs => of_decide_eq_true (List.mem_filter.mp hs).2
  refine ⟨hCne, ?_⟩
  obtain ⟨k1, k2, k3⟩ := k
  have hcomp : ∀ s ∈ contributors cloud leaf (k1, k2, k3),
      ⌊(s.coordinates.x - (bboxMin cloud).x) / leaf⌋ = k1 ∧
      ⌊(s.coordinates.y - (bboxMin cloud).y) / leaf⌋ = k2 ∧
      ⌊(s.coordinates.z - (bboxMin cloud).z) / leaf⌋ = k3 := by
    intro s hs
    have := hkey s hs
    simpa [cellIdx, Prod.ext_iff] using this
  have hxm : ⌊((voxelMean (contributors cloud leaf (k1, k2, k3))).coordinates.x -
      (bboxMin cloud).x) / leaf⌋ = k1 := by
    rw [voxelMean_coord_x]
    apply floor_mean_eq k1 leaf _ hleaf _ (by simpa using hCne)
    intro x hx
    obtain ⟨s, hs, rfl⟩ := List.mem_map.mp hx
    exact (hcomp s hs).1
  have hym : ⌊((voxelMean (contributors cloud leaf (k1, k2, k3))).coordinates.y -
      (bboxMin cloud).y) / leaf⌋ = k2 := by
    rw [voxelMean_coord_y]
    apply floor_mean_eq k2 leaf _ hleaf _ (by simpa using hCne)
    intro x hx
    obtain ⟨s, hs, rfl⟩ := List.mem_map.mp hx
    exact (hcomp s hs).2.1
  have hzm : ⌊((voxelMean (contributors cloud leaf (k1, k2, k3))).coordinates.z -
      (bboxMin cloud).z) / leaf⌋ = k3 := by
    rw [voxelMean_coord_z]
    apply floor_mean_eq k3 leaf _ hleaf _ (by simpa using hCne)
    intro x hx
    obtain ⟨s, hs, rfl⟩ := List.mem_map.mp hx
    exact (hcomp s hs).2.2
  simp [cellIdx, Prod.ext_iff, hxm, hym, hzm]

/-- C2: voxel_grid_down_sample(leaf) returns a cloud with active
property on every point, with at most one point per voxel (the voxel
keys of the output are nodup), occupying exactly the voxels the input
occupies, and every output point is the arithmetic mean, coordinates
and colour, of the input points of its voxel.  The operation is a pure
function of (cloud, leaf): it is deterministic and leaves the input
cloud unchanged. -/
theorem voxel_grid_down_sample_spec (cloud : List point_t) (leaf : ℚ)
    (hleaf : 0 < leaf) :
    (∀ q ∈ voxel_grid_down_sample cloud leaf, q.property = point_property.active) ∧
    ((voxel_grid_down_sample cloud leaf).map fun q =>
      cellIdx leaf (bboxMin cloud) q.coordinates).Nodup ∧
    (∀ k : ℤ × ℤ × ℤ,
      (∃ p ∈ cloud, cellIdx leaf (bboxMin cloud) p.coordinates = k) ↔
      (∃ q ∈ voxel_grid_down_sample cloud leaf,
        cellIdx leaf (bboxMin cloud) q.coordinates = k)) ∧
    (∀ q ∈ voxel_grid_down_sample cloud leaf,
      contributors cloud leaf (cellIdx leaf (bboxMin cloud) q.coordinates) ≠ [] ∧
      q.coordinates.x = meanQ ((contributors cloud leaf
        (cellIdx leaf (bboxMin cloud) q.coordinates)).map fun p => p.coordinates.x) ∧
      q.coordinates.y = meanQ ((contributors cloud leaf
        (cellIdx leaf (bboxMin cloud) q.coordinates)).map fun p => p.coordinates.y) ∧
      q.coordinates.z = meanQ ((contributors cloud leaf
        (cellIdx leaf (bboxMin cloud) q.coordinates)).map fun p => p.coordinates.z) ∧
      q.color.r = meanQ ((contributors cloud leaf
        (cellIdx leaf (bboxMin cloud) q.coordinates)).map fun p => p.color.r) ∧
      q.color.g = meanQ ((contributors cloud leaf
        (cellIdx leaf (bboxMin cloud) q.coordinates)).map fun p => p.color.g) ∧
      q.color.b = meanQ ((contributors cloud leaf
        (cellIdx leaf (bboxMin cloud) q.coordinates)).map fun p => p.color.b)) := by
  have hocc : ∀ k ∈ (cloud.map fun p => cellIdx leaf (bboxMin cloud) p.coordinates).dedup,
      ∃ p ∈ cloud, cellIdx leaf (bboxMin cloud) p.coordinates = k := by
    intro k hk
    have := List.mem_dedup.mp hk
    obtain ⟨p, hp, hpk⟩ := List.mem_map.mp this
    exact ⟨p, hp, hpk⟩
  refine ⟨?_, ?_, ?_, ?_⟩
  · intro q hq
    obtain ⟨k, hk, rfl⟩ := List.mem_map.mp hq
    rfl
  · have heq : (voxel_grid_down_sample cloud leaf).map
        (fun q => cellIdx leaf (bboxMin cloud) q.coordinates) =
        (cloud.map fun p => cellIdx leaf (bboxMin cloud) p.coordinates).dedup := by
      rw [voxel_grid_down_sample, List.map_map]
      calc ((cloud.map fun p => cellIdx leaf (bboxMin cloud) p.coordinates).dedup).map
            ((fun q => cellIdx leaf (bboxMin cloud) q.coordinates) ∘
              fun k => voxelMean (contributors cloud leaf k)) =
          ((cloud.map fun p => cellIdx leaf (bboxMin cloud) p.coordinates).dedup).map
            id := by
            apply List.map_congr_left
            intro k hk
            show cellIdx leaf (bboxMin cloud)
              (voxelMean (contributors cloud leaf k)).coordinates = k
            exact (voxel_key_of_mean cloud leaf hleaf k (hocc k hk)).2
        _ = (cloud.map fun p => cellIdx leaf (bboxMin cloud) p.coordinates).dedup :=
            List.map_id _
    rw [heq]
    exact List.nodup_dedup _
  · intro k
    constructor
    · intro hk
      have hkd : k ∈ (cloud.map fun p =>
          cellIdx leaf (bboxMin cloud) p.coordinates).dedup := by
        obtain ⟨p, hp, hpk⟩ := hk
        exact List.mem_dedup.mpr (List.mem_map.mpr ⟨p, hp, hpk⟩)
      refine ⟨voxelMean (contributors cloud leaf k), ?_, ?_⟩
      · exact List.mem_map_of_mem _ hkd
      · exact (voxel_key_of_mean cloud leaf hleaf k (hocc k hkd)).2
    · rintro ⟨q, hq, rfl⟩
      obtain ⟨k0, hk0, rfl⟩ := List.mem_map.mp hq
      rw [(voxel_key_of_mean cloud leaf hleaf k0 (hocc k0 hk0)).2]
      exact hocc k0 hk0
  · intro q hq
    obtain ⟨k0, hk0, rfl⟩ := List.mem_map.mp hq
    rw [(voxel_key_of_mean cloud leaf hleaf k0 (hocc k0 hk0)).2]
    exact ⟨(voxel_key_of_mean cloud leaf hleaf k0 (hocc k0 hk0)).1,
      voxelMean_coord_x _, voxelMean_coord_y _, voxelMean_coord_z _,
      voxelMean_color_r _, voxelMean_color_g _, voxelMean_color_b _⟩

/-- Witness for C2 on a two-point cloud with leaf 1. -/
theorem voxel_grid_down_sample_spec_witness :
    (0 : ℚ) < 1 ∧
    (∀ q ∈ voxel_grid_down_sample
        [point_t.mk (float3.mk 0 0 0) (color3.mk 0 0 0) point_property.active,
         point_t.mk (float3.mk (1/4) 0 0) (color3.mk 1 0 0) point_property.inactive] 1,
      q.property = point_property.active) :=
  ⟨by norm_num,
    (voxel_grid_down_sample_spec
      [point_t.mk (float3.mk 0 0 0) (color3.mk 0 0 0) point_property.active,
       point_t.mk (float3.mk (1/4) 0 0) (color3.mk 1 0 0) point_property.inactive] 1
      (by norm_num)).1⟩

/-- Helper: a value whose square is at most the square of a nonnegative
bound is at most that bound in absolute value. -/
theorem abs_le_of_sq_le_sq (a r : ℚ) (h0 : 0 ≤ r) (h : a ^ 2 ≤ r ^ 2) : |a| ≤ r := by
  nlinarith [abs_nonneg a, sq_abs a]

/-- Helper: two coordinates at distance at most the cell size land in
the same or an adjacent grid cell along their axis. -/
theorem floor_div_near (a c m h : ℚ) (hh : 0 < h) (hab : |a - c| ≤ h) :
    |⌊(a - m) / h⌋ - ⌊(c - m) / h⌋| ≤ 1 := by
  obtain ⟨hl, hu⟩ := abs_le.mp hab
  have h1 : (a - m) / h ≤ (c - m) / h + 1 := by
    rw [div_add_one (ne_of_gt hh)]
    exact (div_le_div_iff_of_pos_right hh).mpr (by linarith)
  have h2 : (c - m) / h ≤ (a - m) / h + 1 := by
    rw [div_add_one (ne_of_gt hh)]
    exact (div_le_div_iff_of_pos_right hh).mpr (by linarith)
  have f1 : ⌊(a - m) / h⌋ ≤ ⌊(c - m) / h⌋ + 1 := by
    have := Int.floor_le_floor h1
    rwa [Int.floor_add_one] at this
  have f2 : ⌊(c - m) / h⌋ ≤ ⌊(a - m) / h⌋ + 1 := by
    have := Int.floor_le_floor h2
    rwa [Int.floor_add_one] at this
  rw [abs_le]
  omega

/-- Helper: a point within distance r ≤ h of the query lies in the
3×3×3 cell neighborhood of the query's cell. -/
theorem cellNear_of_dist2_le (h r : ℚ) (m q p : float3) (hh : 0 < h) (hr0 : 0 ≤ r)
    (hrh : r ≤ h) (hd : dist2 p q ≤ r ^ 2) : cellNear h m q p := by
  have hx : (p.x - q.x) ^ 2 ≤ r ^ 2 := by
    have := sq_nonneg (p.y - q.y)
    have := sq_nonneg (p.z - q.z)
    simp only [dist2] at hd
    nlinarith
  have hy : (p.y - q.y) ^ 2 ≤ r ^ 2 := by
    have := sq_nonneg (p.x - q.x)
    have := sq_nonneg (p.z - q.z)
    simp only [dist2] at hd
    nlinarith
  have hz : (p.z - q.z) ^ 2 ≤ r ^ 2 := by
    have := sq_nonneg (p.x - q.x)
    have := sq_nonneg (p.y - q.y)
    simp only [dist2] at hd
    nlinarith
  refine ⟨?_, ?_, ?_⟩
  · exact floor_div_near p.x q.x m.x h hh ((abs_le_of_sq_le_sq _ r hr0 hx).trans hrh)
  · exact floor_div_near p.y q.y m.y h hh ((abs_le_of_sq_le_sq _ r hr0 hy).trans hrh)
  · exact floor_div_near p.z q.z m.z h hh ((abs_le_of_sq_le_sq _ r hr0 hz).trans hrh)

/-- C3: for every cloud, query point and radius r with 0 ≤ r ≤ h, the
grid-hash radius_search returns exactly the brute-force result over all
points: scanning only the 3×3×3 neighborhood of the query's cell loses
no neighbor. -/
theorem radius_search_eq_brute_force (cloud : List point_t) (h : ℚ) (q : float3)
    (r : ℚ) (hh : 0 < h) (hr0 : 0 ≤ r) (hrh : r ≤ h) :
    radius_search cloud h q r = Except.ok (brute_force_radius_search cloud q r) := by
  unfold radius_search brute_force_radius_search
  rw [if_neg (by push_neg; exact ⟨hr0, hrh⟩)]
  congr 1
  apply List.filterMap_congr
  intro ip hip
  by_cases hd : dist2 ip.2.coordinates q ≤ r ^ 2
  · rw [if_pos hd,
      if_pos ⟨cellNear_of_dist2_le h r (bboxMin cloud) q ip.2.coordinates hh hr0 hrh hd, hd⟩]
  · rw [if_neg hd, if_neg fun hcon => hd hcon.2]

/-- Witness for C3 on a one-point cloud with h = 1, r = 1. -/
theorem radius_search_eq_brute_force_witness :
    (0 : ℚ) < 1 ∧ (0 : ℚ) ≤ 1 ∧ (1 : ℚ) ≤ 1 ∧
    radius_search [point_t.mk (float3.mk 0 0 0) (color3.mk 0 0 0) point_property.active]
        1 (float3.mk 0 0 0) 1 =
      Except.ok (brute_force_radius_search
        [point_t.mk (float3.mk 0 0 0) (color3.mk 0 0 0) point_property.active]
        (float3.mk 0 0 0) 1) :=
  ⟨by norm_num, by norm_num, le_refl 1,
    radius_search_eq_brute_force _ 1 _ 1 (by norm_num) (by norm_num) (le_refl 1)⟩

/-- C5: radius_outlier_removal returns a subsequence of the input (so
surviving points keep their original order), a point survives exactly
when at least minNeighbors other points lie within distance r of it, and
the number of survivors is the number of qualifying indices.  The
operation is a pure function of (cloud, r, minNeighbors), hence
deterministic, and it builds a new list, leaving the input unchanged. -/
theorem radius_outlier_removal_spec (cloud : List point_t) (r : ℚ) (minNeighbors : ℕ) :
    List.Sublist (radius_outlier_removal cloud r minNeighbors) cloud ∧
    (∀ p, p ∈ radius_outlier_removal cloud r minNeighbors ↔
      ∃ ip ∈ cloud.enum, ip.2 = p ∧
        minNeighbors ≤ count_other_neighbors cloud r ip.1 ip.2) ∧
    (radius_outlier_removal cloud r minNeighbors).length =
      cloud.enum.countP fun ip =>
        decide (minNeighbors ≤ count_other_neighbors cloud r ip.1 ip.2) := by
  refine ⟨?_, ?_, ?_⟩
  · have h1 : List.Sublist (cloud.enum.filter fun ip =>
        decide (minNeighbors ≤ count_other_neighbors cloud r ip.1 ip.2)) cloud.enum :=
      List.filter_sublist _
    have h2 := h1.map Prod.snd
    rwa [List.enum_map_snd] at h2
  · intro p
    constructor
    · intro hp
      obtain ⟨ip, hip, rfl⟩ := List.mem_map.mp hp
      obtain ⟨hmem, hcond⟩ := List.mem_filter.mp hip
      exact ⟨ip, hmem, rfl, of_decide_eq_true hcond⟩
    · rintro ⟨ip, hmem, rfl, hcond⟩
      exact List.mem_map_of_mem Prod.snd
        (List.mem_filter.mpr ⟨hmem, decide_eq_true hcond⟩)
  · rw [radius_outlier_removal, List.length_map, List.countP_eq_length_filter]

/-- C6: a radius query with r exceeding the index cell size h fails with
InvalidArgument and returns no neighborhood result. -/
theorem radius_search_invalid_argument (cloud : List point_t) (h : ℚ) (q : float3)
    (r : ℚ) (hr : h < r) :
    radius_search cloud h q r = Except.error gca_error.invalidArgument := by
  unfold radius_search
  rw [if_pos (Or.inr hr)]

/-- Witness for C6 on the empty cloud with h = 1, r = 2. -/
theorem radius_search_invalid_argument_witness :
    (1 : ℚ) < 2 ∧
    radius_search [] 1 (float3.mk 0 0 0) 2 = Except.error gca_error.invalidArgument :=
  ⟨by norm_num, radius_search_invalid_argument [] 1 (float3.mk 0 0 0) 2 (by norm_num)⟩

/-- C4: after estimate_normals, every point that is not invalid carries
a normal of Euclidean length within [1 - 1e-5, 1 + 1e-5] (it is exactly
a unit eigenvector), and every point with fewer than 3 neighbors within
the radius or a degenerate covariance (smallest eigenvalue within 1e-9
of the next) gets the zero normal and the invalid property. -/
theorem estimate_normals_spec (cloud : List rpoint) (radius : ℝ) (p : rpoint)
    (hp : p ∈ cloud) :
    ∃ x ∈ estimate_normals cloud radius,
      x.1.pos = p.pos ∧
      (x.1.property ≠ point_property.invalid →
        ‖x.2‖ ∈ Set.Icc ((1 : ℝ) - 1e-5) (1 + 1e-5)) ∧
      (((neighbors cloud radius p).length < 3 ∨
          degenerate ((neighbors cloud radius p).map rpoint.pos)) →
        x.2 = 0 ∧ x.1.property = point_property.invalid) := by
  refine ⟨({ pos := p.pos, property := (normalAt cloud radius p).2 },
    (normalAt cloud radius p).1), List.mem_map_of_mem _ hp, rfl, ?_, ?_⟩
  · intro hprop
    by_cases h3 : (neighbors cloud radius p).length < 3
    · exact absurd (by simp [normalAt, h3]) hprop
    · by_cases hdeg : degenerate ((neighbors cloud radius p).map rpoint.pos)
      · exact absurd (by simp [normalAt, h3, hdeg]) hprop
      · have hval : (normalAt cloud radius p).1 =
            (covH ((neighbors cloud radius p).map rpoint.pos)).2.eigenvectorBasis
              (minIdx (covH ((neighbors cloud radius p).map rpoint.pos)).2.eigenvalues) := by
          simp [normalAt, h3, hdeg]
        rw [hval,
          ((covH ((neighbors cloud radius p).map rpoint.pos)).2.eigenvectorBasis.orthonormal).1
            (minIdx (covH ((neighbors cloud radius p).map rpoint.pos)).2.eigenvalues)]
        rw [Set.mem_Icc]
        norm_num
  · intro hcond
    rcases hcond with h3 | hdeg
    · constructor <;> simp [normalAt, h3]
    · by_cases h3 : (neighbors cloud radius p).length < 3
      · constructor <;> simp [normalAt, h3]
      · constructor <;> simp [normalAt, h3, hdeg]

/-- Witness for C4 on a single-point cloud, whose point has no
3-neighborhood and therefore becomes invalid with the zero normal. -/
theorem estimate_normals_spec_witness :
    ∃ x ∈ estimate_normals [rpoint.mk 0 point_property.active] 1,
      x.1.pos = (rpoint.mk 0 point_property.active).pos ∧
      (x.1.property ≠ point_property.invalid →
        ‖x.2‖ ∈ Set.Icc ((1 : ℝ) - 1e-5) (1 + 1e-5)) ∧
      (((neighbors [rpoint.mk 0 point_property.active] 1
            (rpoint.mk 0 point_property.active)).length < 3 ∨
          degenerate ((neighbors [rpoint.mk 0 point_property.active] 1
            (rpoint.mk 0 point_property.active)).map rpoint.pos)) →
        x.2 = 0 ∧ x.1.property = point_property.invalid) :=
  estimate_normals_spec [rpoint.mk 0 point_property.active] 1
    (rpoint.mk 0 point_property.active) (List.mem_singleton_self _)

/-- C10: the point property is a single byte with the fixed encoding
invalid = 0, active = 1, inactive = 2; every encoded value is one of
these three byte values. -/
theorem point_property_byte_encoding :
    point_property.code point_property.invalid = 0 ∧
    point_property.code point_property.active = 1 ∧
    point_property.code point_property.inactive = 2 ∧
    (∀ p : point_property, p.code = 0 ∨ p.code = 1 ∨ p.code = 2) ∧
    (∀ p : point_property, p.code < 256) := by
  refine ⟨rfl, rfl, rfl, ?_, ?_⟩ <;> intro p <;> cases p <;> simp [point_property.code]

end gca
